import Mathlib

/-!
Verification development for the ruins/altar event-pinger.

The repository consists of two near-duplicate JavaScript variants of the same
bot: `src/index.js` and `src/unnamed/part_000`.  This file shallowly embeds the
core logic of both variants:

* timestamps are modelled as UTC civil components (year, month, day, hour,
  minute) — every DateTime the program constructs has second and millisecond
  zero — and converted to epoch milliseconds (an `Int`) by the standard
  days-from-civil computation, matching luxon's `valueOf`/`toMillis`;
* a luxon `DateTime` value is `LuxonDT`: either `invalid` (luxon's Invalid
  DateTime, which is truthy in JS and compares false under `<`/`>=`) or
  `valid` with civil components;
* JS strings are modelled as `List Char` (all strings the program builds are
  made of Basic-Multilingual-Plane characters, so JS UTF-16 length, `slice`
  and character indexing coincide with `List Char` length/take);
* JS whitespace handling (`trim`, `\s`) is modelled on the ASCII whitespace
  characters, which are the only whitespace the schedule files contain;
* the scheduler tick's side effects are modelled by threading the
  notification ledger (a list of already-warned keys) and accumulating the
  list of keys handed to the Notifier; channel resolution (the only failure
  path of `sendWarning` that is observable before the send) is a boolean of
  the tick environment.
-/

namespace RuinsAltar

/-- JS strings, modelled as lists of characters. -/
abbrev Str := List Char

/-- Notification-ledger keys (`type:ISO` strings). -/
abbrev Key := Str

/-! ### Calendar arithmetic (UTC, proleptic Gregorian, as used by luxon) -/

/-- Gregorian leap-year test. -/
def isLeap (y : Int) : Bool :=
  y % 4 == 0 && (y % 100 != 0 || y % 400 == 0)

/-- Number of days in month `m` (1–12) of year `y`; 0 for out-of-range months. -/
def daysInMonth (y : Int) (m : Nat) : Nat :=
  match m with
  | 1 => 31 | 2 => if isLeap y then 29 else 28 | 3 => 31 | 4 => 30
  | 5 => 31 | 6 => 30 | 7 => 31 | 8 => 31
  | 9 => 30 | 10 => 31 | 11 => 30 | 12 => 31
  | _ => 0

/-- Days since 1970-01-01 of the civil date `y-m-d` (Hinnant's algorithm). -/
def daysFromCivil (y : Int) (m d : Nat) : Int :=
  let y' : Int := if m ≤ 2 then y - 1 else y
  let era : Int := y'.ediv 400
  let yoe : Nat := (y' - era * 400).toNat
  let mp : Nat := (m + 9) % 12
  let doy : Nat := (153 * mp + 2) / 5 + d - 1
  let doe : Nat := yoe * 365 + yoe / 4 - yoe / 100 + doy
  era * 146097 + (doe : Int) - 719468

/-- Civil date `(y, m, d)` of a count of days since 1970-01-01. -/
def civilFromDays (z0 : Int) : Int × Nat × Nat :=
  let z : Int := z0 + 719468
  let era : Int := z.ediv 146097
  let doe : Nat := (z - era * 146097).toNat
  let yoe : Nat := (doe - doe / 1460 + doe / 36524 - doe / 146096) / 365
  let y : Int := (yoe : Int) + era * 400
  let doy : Nat := doe - (365 * yoe + yoe / 4 - yoe / 100)
  let mp : Nat := (5 * doy + 2) / 153
  let d : Nat := doy - (153 * mp + 2) / 5 + 1
  let m : Nat := if mp < 10 then mp + 3 else mp - 9
  (if m ≤ 2 then y + 1 else y, m, d)

/-! ### Luxon DateTime model -/

/-- Civil components of a UTC timestamp at minute resolution (the only
resolution this program ever constructs). -/
structure DTC where
  year : Int
  month : Nat
  day : Nat
  hour : Nat
  minute : Nat
deriving DecidableEq, Repr

/-- Epoch milliseconds of a civil timestamp (luxon `toMillis`/`valueOf` for a
UTC DateTime). -/
def DTC.toMillis (c : DTC) : Int :=
  daysFromCivil c.year c.month c.day * 86400000
    + ((c.hour * 3600000 + c.minute * 60000 : Nat) : Int)

/-- A luxon `DateTime`: either an Invalid DateTime (truthy in JS, all relational
comparisons false) or a valid UTC instant carried as civil components. -/
inductive LuxonDT where
  | invalid
  | valid (c : DTC)
deriving DecidableEq, Repr

/-- Validity of the components that `DateTime.fromObject` checks: month 1–12,
day within the month, hour 0–23, minute 0–59. -/
def validDMHM (y : Int) (m d h mi : Nat) : Bool :=
  1 ≤ m && m ≤ 12 && 1 ≤ d && d ≤ daysInMonth y m && h ≤ 23 && mi ≤ 59

/-- Luxon `DateTime.fromObject({year, month, day, hour, minute}, {zone: "UTC"})`:
a valid DateTime if the components are in range, Invalid otherwise. -/
def fromObject (y : Int) (m d h mi : Nat) : LuxonDT :=
  if validDMHM y m d h mi then .valid ⟨y, m, d, h, mi⟩ else .invalid

/-- Luxon `plus({years: 1})` on a valid DateTime: the year advances by one and
the day is clamped to the length of the month in the new year. -/
def plusOneYearC (c : DTC) : DTC :=
  ⟨c.year + 1, c.month, min c.day (daysInMonth (c.year + 1) c.month), c.hour, c.minute⟩

/-- Civil components of an epoch-milliseconds instant (used for luxon's `now`
and for `minus({hours: 1})`). -/
def dtcOfMillis (t : Int) : DTC :=
  let z : Int := t.ediv 86400000
  let rem : Nat := (t - z * 86400000).toNat
  let ymd := civilFromDays z
  ⟨ymd.1, ymd.2.1, ymd.2.2, rem / 3600000, rem % 3600000 / 60000⟩

/-- The UTC calendar year of an instant (`DateTime.now().setZone("UTC").year`). -/
def yearOfEpochMs (t : Int) : Int :=
  (dtcOfMillis t).year

/-! ### Line normalization and the date-line matcher -/

/-- The ASCII whitespace characters matched by JS `trim`/`\s` that can occur in
the schedule files. -/
def isWS (c : Char) : Bool :=
  c == ' ' || c == '\t' || c == '\n' || c == '\r' || c == '\x0b' || c == '\x0c'

/-- JS `String.prototype.trim`. -/
def trimL (l : Str) : Str :=
  ((l.dropWhile isWS).reverse.dropWhile isWS).reverse

/-- JS `replace(/\s+/g, " ")`: collapse each whitespace run to one space. -/
def collapseWS : Str → Str
  | [] => []
  | [c] => [if isWS c then ' ' else c]
  | c :: d :: cs =>
    if isWS c && isWS d then collapseWS (d :: cs)
    else (if isWS c then ' ' else c) :: collapseWS (d :: cs)

/-- JS `replace(/^[A-Za-z]{3},\s*/g, "")`: strip a leading three-letter weekday
abbreviation plus comma and following whitespace. -/
def stripWeekday (l : Str) : Str :=
  match l with
  | a :: b :: c :: ',' :: rest =>
    if a.isAlpha && b.isAlpha && c.isAlpha then rest.dropWhile isWS else l
  | _ => l

/-- The source function `normalizeLine`: trim, collapse whitespace, strip the
optional weekday. -/
def normalizeLine (l : Str) : Str :=
  stripWeekday (collapseWS (trimL l))

/-- Numeric value of a digit string (`Number("07") = 7`). -/
def digitsVal (ds : Str) : Nat :=
  ds.foldl (fun n c => n * 10 + (c.toNat - 48)) 0

/-- The anchored regex `^(\d{1,2})\.(\d{1,2})\.\s*(\d{1,2}):(\d{2})$`,
returning `(day, month, hour, minute)` on a match.  Because a digit can never
follow the day/month/hour groups in a successful match, taking the longest
digit run is equivalent to the regex's backtracking. -/
def matchDMHM (s : Str) : Option (Nat × Nat × Nat × Nat) :=
  let p1 := s.span Char.isDigit
  if p1.1.length = 0 ∨ 2 < p1.1.length then none else
  match p1.2 with
  | '.' :: r2 =>
    let p2 := r2.span Char.isDigit
    if p2.1.length = 0 ∨ 2 < p2.1.length then none else
    match p2.2 with
    | '.' :: r4 =>
      let r5 := r4.dropWhile isWS
      let p3 := r5.span Char.isDigit
      if p3.1.length = 0 ∨ 2 < p3.1.length then none else
      match p3.2 with
      | ':' :: r7 =>
        let p4 := r7.span Char.isDigit
        if p4.1.length = 2 ∧ p4.2 = [] then
          some (digitsVal p1.1, digitsVal p2.1, digitsVal p3.1, digitsVal p4.1)
        else none
      | _ => none
    | _ => none
  | _ => none

/-- The source function `parseDateLineUTC`.  `none` models the JS `null` return
(no match); `some .invalid` models returning a (truthy!) Invalid DateTime when
the line matches the shape but the components do not form a real date. -/
def parseDateLineUTC (nowMs : Int) (line : Str) : Option LuxonDT :=
  let s := normalizeLine line
  if s = [] then none else
  match matchDMHM s with
  | none => none
  | some (d, m, h, mi) =>
    let y := yearOfEpochMs nowMs
    match fromObject y m d h mi with
    | .invalid => some .invalid
    | .valid c =>
      some (.valid (if c.toMillis < nowMs - 300000 then plusOneYearC c else c))

/-! ### ISO-8601 printing and parsing -/

/-- The decimal digit character for `n % 10`. -/
def digitChar10 (n : Nat) : Char :=
  Char.ofNat (48 + n % 10)

/-- Two-digit zero-padded decimal (all values this program prints are < 100). -/
def pad2 (n : Nat) : Str :=
  [digitChar10 (n / 10), digitChar10 n]

/-- Four-digit zero-padded decimal (all years this program prints are < 10000). -/
def pad4 (n : Nat) : Str :=
  [digitChar10 (n / 1000), digitChar10 (n / 100), digitChar10 (n / 10), digitChar10 n]

/-- Luxon `toISO()` of a valid UTC DateTime at minute resolution:
`YYYY-MM-DDTHH:MM:00.000Z`. -/
def isoOfDTC (c : DTC) : Str :=
  pad4 c.year.toNat ++ '-' :: pad2 c.month ++ '-' :: pad2 c.day
    ++ 'T' :: pad2 c.hour ++ ':' :: pad2 c.minute ++ ":00.000Z".data

/-- JS `` `${type}:${dt.toISO()}` ``: `toISO()` of an Invalid DateTime is
`null`, which string interpolation renders as the text `null`. -/
def toISOText : LuxonDT → Str
  | .invalid => "null".data
  | .valid c => isoOfDTC c

/-- Digit value of a character, if it is a decimal digit. -/
def digitVal? (c : Char) : Option Nat :=
  if 48 ≤ c.toNat ∧ c.toNat ≤ 57 then some (c.toNat - 48) else none

/-- Value of a two-digit group, if both characters are decimal digits. -/
def read2 (a b : Char) : Option Nat :=
  match digitVal? a, digitVal? b with
  | some x, some y => some (x * 10 + y)
  | _, _ => none

/-- Value of a four-digit group, if all characters are decimal digits. -/
def read4 (a b c d : Char) : Option Nat :=
  match read2 a b, read2 c d with
  | some x, some y => some (x * 100 + y)
  | _, _ => none

/-- An ISO hour group, in milliseconds, if in range. -/
def hourVal (a b : Char) : Option Nat :=
  match read2 a b with
  | some v => if v ≤ 23 then some (v * 3600000) else none
  | none => none

/-- An ISO minute or second group scaled to milliseconds, if in range. -/
def minSecVal (a b : Char) (scale : Nat) : Option Nat :=
  match read2 a b with
  | some v => if v ≤ 59 then some (v * scale) else none
  | none => none

/-- An ISO three-digit millisecond group. -/
def msVal (x y w : Char) : Option Nat :=
  match digitVal? x, digitVal? y, digitVal? w with
  | some u, some v, some q => some (u * 100 + v * 10 + q)
  | _, _, _ => none

/-- Sum of two optional values, none-propagating. -/
def addV : Option Nat → Option Nat → Option Nat
  | some a, some b => some (a + b)
  | _, _ => none

/-- Read the time-of-day part of an ISO string after the `T`:
`HH[:MM[:SS[.mmm]]]` with an optional trailing `Z`, returning milliseconds
past midnight.  (Luxon accepts hour-only and minute-only ISO times; offsets
other than `Z`/none do not occur in this program's ledger keys.) -/
def readISOTime (s : Str) : Option Nat :=
  match s with
  | [a, b] => hourVal a b
  | [a, b, z] => if z = 'Z' then hourVal a b else none
  | [a, b, c, d, e] =>
    if c = ':' then addV (hourVal a b) (minSecVal d e 60000) else none
  | [a, b, c, d, e, z] =>
    if c = ':' ∧ z = 'Z' then addV (hourVal a b) (minSecVal d e 60000) else none
  | [a, b, c, d, e, f, g, h] =>
    if c = ':' ∧ f = ':' then
      addV (addV (hourVal a b) (minSecVal d e 60000)) (minSecVal g h 1000)
    else none
  | [a, b, c, d, e, f, g, h, z] =>
    if c = ':' ∧ f = ':' ∧ z = 'Z' then
      addV (addV (hourVal a b) (minSecVal d e 60000)) (minSecVal g h 1000)
    else none
  | [a, b, c, d, e, f, g, h, p, x, y, w] =>
    if c = ':' ∧ f = ':' ∧ p = '.' then
      addV (addV (addV (hourVal a b) (minSecVal d e 60000)) (minSecVal g h 1000))
        (msVal x y w)
    else none
  | [a, b, c, d, e, f, g, h, p, x, y, w, z] =>
    if c = ':' ∧ f = ':' ∧ p = '.' ∧ z = 'Z' then
      addV (addV (addV (hourVal a b) (minSecVal d e 60000)) (minSecVal g h 1000))
        (msVal x y w)
    else none
  | _ => none

/-- Model of luxon `DateTime.fromISO(s).toMillis()` restricted to the ISO-8601
shapes this program's ledger keys can contain (`YYYY-MM-DD` followed by an
optional time part): `some` epoch milliseconds when luxon would produce a
valid DateTime, `none` when it would produce an Invalid DateTime (whose
`toMillis()` is `NaN`).  Timezone-free strings are read as UTC, matching the
`{zone: "UTC"}` option (and, for the variant that omits the option, a process
running in UTC). -/
def fromISOms (s : Str) : Option Int :=
  match s with
  | y1 :: y2 :: y3 :: y4 :: u1 :: m1 :: m2 :: u2 :: d1 :: d2 :: rest =>
    if u1 = '-' ∧ u2 = '-' then
      match read4 y1 y2 y3 y4, read2 m1 m2, read2 d1 d2 with
      | some y, some mo, some dy =>
        if 1 ≤ mo ∧ mo ≤ 12 ∧ 1 ≤ dy ∧ dy ≤ daysInMonth (y : Int) mo then
          match rest with
          | [] => some (daysFromCivil (y : Int) mo dy * 86400000)
          | t :: time =>
            if t = 'T' then
              match readISOTime time with
              | some ms => some (daysFromCivil (y : Int) mo dy * 86400000 + (ms : Int))
              | none => none
            else none
        else none
      | _, _, _ => none
    else none
  | _ => none

/-! ### Events, schedule reading, catalog -/

/-- A schedule event: category label, start time, and dedup/notification key
`type:ISO(startsAt)`. -/
structure SEvent where
  type : Str
  startsAt : LuxonDT
  key : Key
deriving DecidableEq, Repr

/-- Event key built the way the source builds it. -/
def mkKey (ty : Str) (dt : LuxonDT) : Key :=
  ty ++ ':' :: toISOText dt

/-- The line loop of `readScheduleFile`: parse each line, skip JS-falsy parse
results, deduplicate by key (first occurrence wins) via the `seen` set. -/
def readRawAux (nowMs : Int) (ty : Str) : List Str → List Key → List SEvent
  | [], _ => []
  | l :: ls, seen =>
    match parseDateLineUTC nowMs l with
    | none => readRawAux nowMs ty ls seen
    | some dt =>
      let key := mkKey ty dt
      if key ∈ seen then readRawAux nowMs ty ls seen
      else ⟨ty, dt, key⟩ :: readRawAux nowMs ty ls (key :: seen)

/-- The `seen` set of `readScheduleFile` after processing a list of lines. -/
def seenAfter (nowMs : Int) (ty : Str) : List Str → List Key → List Key
  | [], seen => seen
  | l :: ls, seen =>
    match parseDateLineUTC nowMs l with
    | none => seenAfter nowMs ty ls seen
    | some dt =>
      let key := mkKey ty dt
      if key ∈ seen then seenAfter nowMs ty ls seen
      else seenAfter nowMs ty ls (key :: seen)

/-- The sort comparator `a.startsAt.toMillis() - b.startsAt.toMillis()`:
an Invalid DateTime's `toMillis()` is `NaN`, and a comparator returning `NaN`
is treated as 0 ("equal") by `Array.prototype.sort`. -/
def evLE (a b : SEvent) : Bool :=
  match a.startsAt, b.startsAt with
  | .valid c1, .valid c2 => c1.toMillis ≤ c2.toMillis
  | _, _ => true

/-- Insert into a sorted list, before any element it compares `≤` to;
together with `sortEvents` this is a stable sort, matching the stable
`Array.prototype.sort`. -/
def insertEv (e : SEvent) : List SEvent → List SEvent
  | [] => [e]
  | x :: xs => if evLE e x then e :: x :: xs else x :: insertEv e xs

/-- Stable sort of events by `startsAt` milliseconds. -/
def sortEvents (l : List SEvent) : List SEvent :=
  l.foldr insertEv []

/-- The line pre-processing of `readScheduleFile` (part_000 variant): split
into lines, trim each, drop blanks and `#`-comments. -/
def preprocessLines (lines : List Str) : List Str :=
  (lines.map trimL).filter (fun l => !l.isEmpty && l.head? != some '#')

/-- The source function `readScheduleFile`: pre-process, parse-and-dedup, sort ascending.
File contents are passed as a list of lines; a missing file is the empty
list. -/
def readScheduleFile (nowMs : Int) (lines : List Str) (ty : Str) : List SEvent :=
  sortEvents (readRawAux nowMs ty (preprocessLines lines) [])

/-- Fourteen days in milliseconds. -/
def fourteenDaysMs : Int := 14 * 86400000

/-- Everything after the first `:` of a key, colons restored —
`k.split(":").slice(1).join(":")` (part_000 prune). -/
def splitCols : Str → List Str
  | [] => [[]]
  | c :: cs =>
    match splitCols cs with
    | [] => [[]]
    | r :: rs => if c = ':' then [] :: r :: rs else (c :: r) :: rs

/-- Join string pieces with `:` (JS `join(":")`). -/
def joinCols : List Str → Str
  | [] => []
  | [x] => x
  | x :: xs => x ++ ':' :: joinCols xs

/-- JS `k.split(":").slice(1).join(":")`. -/
def restAfterColon (k : Key) : Str :=
  joinCols (splitCols k).tail

/-- The ledger prune of the part_000 `loadAllEvents`: delete entries whose
embedded timestamp parses to a finite value strictly below `now - 14 days`;
entries whose timestamp does not parse (`toMillis()` is `NaN`, which
`Number.isFinite` rejects) are kept. -/
def pruneLedger (nowMs : Int) (st : List Key) : List Key :=
  st.filter fun k =>
    match fromISOms (restAfterColon k) with
    | some t => !(t < nowMs - fourteenDaysMs)
    | none => true

/-- The ledger prune of the `index.js` `loadAllEvents`: the embedded timestamp
is taken as `k.split(":")[1]` — only the text between the first and second
colon, which truncates the ISO timestamp at the hour.  `fromISO(undefined)`
and unparseable text give an Invalid DateTime whose `diff(...).days` is `NaN`,
so the `< -14` test is false and the entry is kept. -/
def indexPruneLedger (nowMs : Int) (st : List Key) : List Key :=
  st.filter fun k =>
    match (splitCols k)[1]? with
    | none => true
    | some s =>
      match fromISOms s with
      | some t => !(t < nowMs - fourteenDaysMs)
      | none => true

/-- The part_000 `loadAllEvents`: rebuild the catalog from both sources, sort the
concatenation, prune the ledger, persist it.  Returns the new catalog and the
ledger as persisted by the `saveState(state)` call that follows the prune. -/
def loadAllEvents (nowMs : Int) (ruinsLines altarLines : List Str)
    (st : List Key) : List SEvent × List Key :=
  let ruins := readScheduleFile nowMs ruinsLines "ruins".data
  let altar := readScheduleFile nowMs altarLines "altar".data
  (sortEvents (ruins ++ altar), pruneLedger nowMs st)

/-! ### Queries -/

/-- Luxon `dt >= x` where `x` is an instant in milliseconds: false for an
Invalid DateTime. -/
def dtGE (dt : LuxonDT) (x : Int) : Bool :=
  match dt with
  | .valid c => x ≤ c.toMillis
  | .invalid => false

/-- Luxon `dt <= x`: false for an Invalid DateTime. -/
def dtLE (dt : LuxonDT) (x : Int) : Bool :=
  match dt with
  | .valid c => c.toMillis ≤ x
  | .invalid => false

/-- Luxon `dt > x` (strict): false for an Invalid DateTime. -/
def dtGT (dt : LuxonDT) (x : Int) : Bool :=
  match dt with
  | .valid c => x < c.toMillis
  | .invalid => false

/-- The part_000 `listUpcoming(range)`: events with `startsAt` in
`[now, now + range]`, first 50. -/
def listUpcoming (nowMs endMs : Int) (events : List SEvent) : List SEvent :=
  (events.filter fun e => dtGE e.startsAt nowMs && dtLE e.startsAt endMs).take 50

/-- The part_000 `nextEvent()`: first event with `startsAt >= now`. -/
def nextEvent (nowMs : Int) (events : List SEvent) : Option SEvent :=
  events.find? fun e => dtGE e.startsAt nowMs

/-- The `status` handler of `index.js`: first event with `startsAt > now`
(strict). -/
def indexNextEvent (nowMs : Int) (events : List SEvent) : Option SEvent :=
  events.find? fun e => dtGT e.startsAt nowMs

/-- The `week` handler's filter in `index.js`: only an upper bound
`startsAt <= now + 7 days`, no lower bound and no cap. -/
def indexWeekList (nowMs : Int) (events : List SEvent) : List SEvent :=
  events.filter fun e => dtLE e.startsAt (nowMs + 7 * 86400000)

/-! ### Formatting -/

/-- Short English weekday name of a day count since 1970-01-01 (a Thursday),
as luxon's `ccc` format prints it. -/
def weekdayName (days : Int) : Str :=
  match (((days + 4).emod 7).toNat) with
  | 0 => "Sun".data | 1 => "Mon".data | 2 => "Tue".data | 3 => "Wed".data
  | 4 => "Thu".data | 5 => "Fri".data | _ => "Sat".data

/-- Luxon `toFormat("ccc dd.LL HH:mm") + " UTC"` -- both variants print the same
shape; `toFormat` on an Invalid DateTime prints `Invalid DateTime`. -/
def fmtUTC : LuxonDT → Str
  | .invalid => "Invalid DateTime".data
  | .valid c =>
    weekdayName (daysFromCivil c.year c.month c.day) ++ ' ' :: pad2 c.day
      ++ '.' :: pad2 c.month ++ ' ' :: pad2 c.hour ++ ':' :: pad2 c.minute
      ++ " UTC".data

/-- Luxon `minus({hours: 1})`: shift the instant and recompute components. -/
def minusOneHour : LuxonDT → LuxonDT
  | .invalid => .invalid
  | .valid c => .valid (dtcOfMillis (c.toMillis - 3600000))

/-- JS `join("\n")`. -/
def joinNL : List Str → Str
  | [] => []
  | [x] => x
  | x :: xs => x ++ '\n' :: joinNL xs

/-- One listing line of `formatUpcomingLines`. -/
def upcomingLine (e : SEvent) : Str :=
  let label := if e.type = "ruins".data then "RUINS".data else "ALTAR".data
  "• **".data ++ label ++ "** opens: **".data ++ fmtUTC e.startsAt
    ++ "** | warn: **".data ++ fmtUTC (minusOneHour e.startsAt) ++ "**".data

/-- The joined listing body before truncation. -/
def upcomingBody (items : List SEvent) : Str :=
  joinNL (items.map upcomingLine)

/-- The truncation marker `"\n…(trimmed)"` (11 UTF-16 units). -/
def trimMarker : Str := "\n…(trimmed)".data

/-- The part_000 `formatUpcomingLines`: the listing body, truncated to 1800
characters plus the marker when longer. -/
def formatUpcomingLines (items : List SEvent) : Str :=
  if items.isEmpty then "No upcoming events in that range.".data
  else
    let text := upcomingBody items
    if 1800 < text.length then text.take 1800 ++ trimMarker else text

/-- One line of the `index.js` week/month listing. -/
def indexListLine (e : SEvent) : Str :=
  "• ".data ++ e.type.map Char.toUpper ++ " — ".data ++ fmtUTC e.startsAt

/-- The reply body of the `index.js` `week` handler: the filtered list joined
with newlines, with no truncation and no marker. -/
def indexWeekReplyBody (nowMs : Int) (events : List SEvent) : Str :=
  let list := indexWeekList nowMs events
  if list.isEmpty then "No events in next 7 days.".data
  else joinNL (list.map indexListLine)

/-! ### Scheduler tick -/

/-- One tick's environment: the current time and whether the announce channel
resolves to a text-capable channel (the check `sendWarning` performs before
sending). -/
structure TickEnv where
  now : Int
  channelOk : Bool

/-- Ledger-plus-notifications state threaded through a tick. -/
structure TickRes where
  ledger : List Key
  sent : List Key
deriving DecidableEq, Repr

/-- The source function `sendWarning`: if the channel resolves, send (record the key as handed to
the Notifier), mark the key in the ledger and persist; otherwise return with
no send and no mark. -/
def sendWarning (chOk : Bool) (st : List Key) (ev : SEvent) : TickRes :=
  if chOk then ⟨ev.key :: st, [ev.key]⟩ else ⟨st, []⟩

/-- The warning window test `diff >= 3570 && diff <= 3630` where `diff` is
`startsAt.diff(now, "seconds").seconds` (= milliseconds / 1000, so the bounds
are 3 570 000 ms and 3 630 000 ms); `NaN` for an Invalid DateTime fails both
comparisons. -/
def inWindowB (nowMs : Int) (ev : SEvent) : Bool :=
  match ev.startsAt with
  | .valid c => 3570000 ≤ c.toMillis - nowMs && c.toMillis - nowMs ≤ 3630000
  | .invalid => false

/-- The per-event step of `schedulerTick`: skip if already warned, otherwise
warn (via `sendWarning`) when inside the window. -/
def tickStep (nowMs : Int) (chOk : Bool) (acc : TickRes) (ev : SEvent) : TickRes :=
  if ev.key ∈ acc.ledger then acc
  else if inWindowB nowMs ev then
    let r := sendWarning chOk acc.ledger ev
    ⟨r.ledger, acc.sent ++ r.sent⟩
  else acc

/-- The source function `schedulerTick`: sweep the catalog in order, threading the ledger. -/
def schedulerTick (env : TickEnv) (events : List SEvent) (st : List Key) : TickRes :=
  events.foldl (tickStep env.now env.channelOk) ⟨st, []⟩

/-- Run a sequence of ticks, accumulating every key handed to the Notifier. -/
def runTicks (evs : List SEvent) : List TickEnv → List Key → TickRes
  | [], st => ⟨st, []⟩
  | e :: es, st =>
    let r := schedulerTick e evs st
    let r2 := runTicks evs es r.ledger
    ⟨r2.ledger, r.sent ++ r2.sent⟩

/-! ### Scheduler-tick lemmas -/

theorem tickStep_eq (now : Int) (ok : Bool) (acc : TickRes) (ev : SEvent) :
    tickStep now ok acc ev =
      if ev.key ∈ acc.ledger then acc
      else if inWindowB now ev = true ∧ ok = true then
        ⟨ev.key :: acc.ledger, acc.sent ++ [ev.key]⟩
      else acc := by
  unfold tickStep sendWarning
  by_cases h1 : ev.key ∈ acc.ledger
  · simp [h1]
  · by_cases h2 : inWindowB now ev
    · by_cases h3 : ok <;> simp [h1, h2, h3]
    · simp [h1, h2]

theorem tickStep_sent_mono {now : Int} {ok : Bool} {acc : TickRes} {ev : SEvent}
    {k : Key} (h : k ∈ acc.sent) : k ∈ (tickStep now ok acc ev).sent := by
  rw [tickStep_eq]
  split
  · exact h
  · split
    · exact List.mem_append_left _ h
    · exact h

theorem foldl_tick_sent_mono (now : Int) (ok : Bool) (k : Key) :
    ∀ (l : List SEvent) (acc : TickRes), k ∈ acc.sent →
      k ∈ (List.foldl (tickStep now ok) acc l).sent := by
  intro l
  induction l with
  | nil => intro acc h; exact h
  | cons x xs ih => intro acc h; exact ih _ (tickStep_sent_mono h)

theorem foldl_tick_invariant (now : Int) (ok : Bool) (k : Key) :
    ∀ (l : List SEvent) (acc : TickRes),
      acc.sent.count k ≤ 1 →
      (1 ≤ acc.sent.count k → k ∈ acc.ledger) →
      ((List.foldl (tickStep now ok) acc l).sent.count k ≤ 1
        ∧ (1 ≤ (List.foldl (tickStep now ok) acc l).sent.count k →
            k ∈ (List.foldl (tickStep now ok) acc l).ledger)
        ∧ (k ∈ acc.ledger →
            (List.foldl (tickStep now ok) acc l).sent.count k = acc.sent.count k
              ∧ k ∈ (List.foldl (tickStep now ok) acc l).ledger)) := by
  intro l
  induction l with
  | nil => intro acc h1 h2; exact ⟨h1, h2, fun hm => ⟨rfl, hm⟩⟩
  | cons x xs ih =>
    intro acc h1 h2
    rw [List.foldl_cons, tickStep_eq]
    by_cases hL : x.key ∈ acc.ledger
    · rw [if_pos hL]
      exact ih acc h1 h2
    · rw [if_neg hL]
      by_cases hW : inWindowB now x = true ∧ ok = true
      · rw [if_pos hW]
        by_cases hk : x.key = k
        · subst hk
          have hc0 : acc.sent.count x.key = 0 := by
            by_contra hne
            exact hL (h2 (by omega))
          have hcnt : (acc.sent ++ [x.key]).count x.key = 1 := by
            simp [List.count_append, hc0]
          have := ih ⟨x.key :: acc.ledger, acc.sent ++ [x.key]⟩
            (by rw [hcnt]) (fun _ => List.mem_cons_self _ _)
          refine ⟨this.1, this.2.1, fun hm => ?_⟩
          exact absurd hm hL
        · have hcnt : (acc.sent ++ [x.key]).count k = acc.sent.count k := by
            have h0 : List.count k [x.key] = 0 := by
              rw [List.count_eq_zero]
              simp only [List.mem_singleton]
              exact fun h => hk h.symm
            rw [List.count_append, h0, Nat.add_zero]
          have := ih ⟨x.key :: acc.ledger, acc.sent ++ [x.key]⟩
            (by rw [hcnt]; exact h1)
            (by intro h; rw [hcnt] at h; exact List.mem_cons_of_mem _ (h2 h))
          refine ⟨this.1, this.2.1, fun hm => ?_⟩
          have h3 := this.2.2 (List.mem_cons_of_mem _ hm)
          exact ⟨by rw [h3.1, hcnt], h3.2⟩
      · rw [if_neg hW]
        exact ih acc h1 h2

theorem schedulerTick_count (env : TickEnv) (evs : List SEvent) (st : List Key)
    (k : Key) :
    (schedulerTick env evs st).sent.count k ≤ 1
      ∧ (1 ≤ (schedulerTick env evs st).sent.count k →
          k ∈ (schedulerTick env evs st).ledger)
      ∧ (k ∈ st → (schedulerTick env evs st).sent.count k = 0
          ∧ k ∈ (schedulerTick env evs st).ledger) := by
  have h := foldl_tick_invariant env.now env.channelOk k evs ⟨st, []⟩
    (by simp) (by simp)
  exact ⟨h.1, h.2.1, fun hm => by
    have h3 := h.2.2 hm
    exact ⟨by simpa using h3.1, h3.2⟩⟩

theorem runTicks_invariant (evs : List SEvent) (k : Key) :
    ∀ (envs : List TickEnv) (st : List Key),
      (runTicks evs envs st).sent.count k ≤ 1
        ∧ (1 ≤ (runTicks evs envs st).sent.count k →
            k ∈ (runTicks evs envs st).ledger)
        ∧ (k ∈ st → (runTicks evs envs st).sent.count k = 0
            ∧ k ∈ (runTicks evs envs st).ledger) := by
  intro envs
  induction envs with
  | nil => intro st; exact ⟨by simp [runTicks], by simp [runTicks], fun hm => by
      simp [runTicks, hm]⟩
  | cons e es ih =>
    intro st
    have htick := schedulerTick_count e evs st k
    have hrest := ih (schedulerTick e evs st).ledger
    simp only [runTicks, List.count_append]
    refine ⟨?_, ?_, ?_⟩
    · by_cases hc : 1 ≤ (schedulerTick e evs st).sent.count k
      · have := (hrest.2.2 (htick.2.1 hc)).1
        omega
      · omega
    · intro hge
      by_cases hc : 1 ≤ (runTicks evs es (schedulerTick e evs st).ledger).sent.count k
      · exact hrest.2.1 hc
      · have h1 : 1 ≤ (schedulerTick e evs st).sent.count k := by omega
        exact (hrest.2.2 (htick.2.1 h1)).2
    · intro hm
      have h1 := htick.2.2 hm
      have h2 := hrest.2.2 h1.2
      exact ⟨by omega, h2.2⟩

theorem foldl_tick_sends (now : Int) (ev : SEvent) :
    ∀ (l : List SEvent) (acc : TickRes), ev ∈ l → inWindowB now ev = true →
      (ev.key ∈ acc.sent ∨ ev.key ∉ acc.ledger) →
      ev.key ∈ (List.foldl (tickStep now true) acc l).sent := by
  intro l
  induction l with
  | nil => intro acc h; cases h
  | cons x xs ih =>
    intro acc hmem hw hdisj
    rw [List.foldl_cons]
    rcases List.mem_cons.mp hmem with heq | htl
    · subst heq
      rcases hdisj with hs | hnl
      · exact foldl_tick_sent_mono now true ev.key xs _ (tickStep_sent_mono hs)
      · rw [tickStep_eq, if_neg hnl, if_pos ⟨hw, rfl⟩]
        exact foldl_tick_sent_mono now true ev.key xs _ (by simp)
    · refine ih _ htl hw ?_
      rw [tickStep_eq]
      split
      · exact hdisj
      · split
        · rcases hdisj with hs | hnl
          · exact Or.inl (List.mem_append_left _ hs)
          · by_cases hxk : x.key = ev.key
            · exact Or.inl (List.mem_append_right _ (by simp [hxk]))
            · exact Or.inr (by simp [hnl, Ne.symm hxk])
        · exact hdisj

theorem foldl_tick_sent_src (now : Int) (ok : Bool) (k : Key) :
    ∀ (l : List SEvent) (acc : TickRes),
      k ∈ (List.foldl (tickStep now ok) acc l).sent →
      k ∈ acc.sent ∨ ∃ e, e ∈ l ∧ e.key = k ∧ inWindowB now e = true := by
  intro l
  induction l with
  | nil => intro acc h; exact Or.inl h
  | cons x xs ih =>
    intro acc h
    rw [List.foldl_cons] at h
    rcases ih _ h with hs | ⟨e, he, hk, hw⟩
    · rw [tickStep_eq] at hs
      split at hs
      · exact Or.inl hs
      · split at hs
        · rcases List.mem_append.mp hs with h1 | h2
          · exact Or.inl h1
          · rename_i hcond
            exact Or.inr ⟨x, List.mem_cons_self _ _,
              (List.mem_singleton.mp h2).symm, hcond.1⟩
        · exact Or.inl hs
    · exact Or.inr ⟨e, List.mem_cons_of_mem _ he, hk, hw⟩

theorem tickStep_not_chOk (now : Int) (acc : TickRes) (ev : SEvent) :
    tickStep now false acc ev = acc := by
  rw [tickStep_eq]
  split
  · rfl
  · split
    · rename_i h; exact absurd h.2 (by simp)
    · rfl

theorem schedulerTick_not_chOk (now : Int) (evs : List SEvent) (st : List Key) :
    schedulerTick ⟨now, false⟩ evs st = ⟨st, []⟩ := by
  show List.foldl (tickStep now false) ⟨st, []⟩ evs = ⟨st, []⟩
  induction evs with
  | nil => rfl
  | cons x xs ih => rw [List.foldl_cons, tickStep_not_chOk]; exact ih

/-! ### Claim theorems: the scheduler -/

/-- C1: across any sequence of scheduler ticks, the Notifier is invoked at most
once per key; a key already marked in the ledger is never sent again and stays
marked; and a key that is sent ends up marked in the ledger. -/
theorem c1_at_most_once (envs : List TickEnv) (evs : List SEvent)
    (st : List Key) (k : Key) :
    (runTicks evs envs st).sent.count k ≤ 1
      ∧ (k ∈ (runTicks evs envs st).sent → k ∈ (runTicks evs envs st).ledger)
      ∧ (k ∈ st → (runTicks evs envs st).sent.count k = 0
          ∧ k ∈ (runTicks evs envs st).ledger) := by
  have h := runTicks_invariant evs k envs st
  exact ⟨h.1, fun hm => h.2.1 (List.count_pos_iff.mpr hm), h.2.2⟩

/-- C1 witness: a concrete event warned over two ticks is sent at most once,
and a key already in the ledger is never sent. -/
theorem c1_at_most_once_witness :
    (runTicks [⟨"ruins".data, .valid ⟨2024, 3, 5, 14, 0⟩, "ruins:a".data⟩]
        [⟨1709643600000, true⟩, ⟨1709643630000, true⟩]
        ["old".data]).sent.count "ruins:a".data ≤ 1
      ∧ (runTicks [⟨"ruins".data, .valid ⟨2024, 3, 5, 14, 0⟩, "ruins:a".data⟩]
          [⟨1709643600000, true⟩, ⟨1709643630000, true⟩]
          ["old".data]).sent.count "old".data = 0 :=
  ⟨(c1_at_most_once _ _ _ _).1,
   ((c1_at_most_once [⟨1709643600000, true⟩, ⟨1709643630000, true⟩]
      [⟨"ruins".data, .valid ⟨2024, 3, 5, 14, 0⟩, "ruins:a".data⟩]
      ["old".data] "old".data).2.2 (by decide)).1⟩

/-- C2: on a tick with a resolvable channel, an un-warned catalog event (keys
unique) is handed to the Notifier exactly when
`secondsUntilStart = startsAt - now` lies in the closed window
[3570 s, 3630 s], i.e. `startsAt.toMillis - now ∈ [3570000 ms, 3630000 ms]`. -/
theorem c2_window_correctness (env : TickEnv) (evs : List SEvent) (st : List Key)
    (ev : SEvent) (hok : env.channelOk = true)
    (hnd : (evs.map SEvent.key).Nodup) (hmem : ev ∈ evs) (hst : ev.key ∉ st) :
    (ev.key ∈ (schedulerTick env evs st).sent ↔ inWindowB env.now ev = true)
      ∧ (inWindowB env.now ev = true ↔ ∃ c, ev.startsAt = .valid c
          ∧ 3570000 ≤ c.toMillis - env.now ∧ c.toMillis - env.now ≤ 3630000) := by
  constructor
  · constructor
    · intro hs
      rcases foldl_tick_sent_src env.now env.channelOk ev.key evs ⟨st, []⟩ hs with
        h | ⟨e, he, hk, hw⟩
      · simp at h
      · have : e = ev := List.inj_on_of_nodup_map hnd he hmem hk
        rwa [this] at hw
    · intro hw
      show ev.key ∈ (List.foldl (tickStep env.now env.channelOk) ⟨st, []⟩ evs).sent
      rw [hok]
      exact foldl_tick_sends env.now ev evs ⟨st, []⟩ hmem hw (Or.inr (by simpa))
  · unfold inWindowB
    cases h : ev.startsAt with
    | invalid => simp
    | valid c => simp [Bool.and_eq_true, decide_eq_true_eq]

/-- C2 witness: with `secondsUntilStart = 3600` the event is warned on that
tick; with 3700 or 3500 it is not. -/
theorem c2_window_correctness_witness :
    ("ruins:w".data ∈ (schedulerTick ⟨1709643600000, true⟩
        [⟨"ruins".data, .valid ⟨2024, 3, 5, 14, 0⟩, "ruins:w".data⟩] []).sent)
      ∧ ¬ ("ruins:w".data ∈ (schedulerTick ⟨1709643500000, true⟩
          [⟨"ruins".data, .valid ⟨2024, 3, 5, 14, 0⟩, "ruins:w".data⟩] []).sent)
      ∧ ¬ ("ruins:w".data ∈ (schedulerTick ⟨1709643700000, true⟩
          [⟨"ruins".data, .valid ⟨2024, 3, 5, 14, 0⟩, "ruins:w".data⟩] []).sent) :=
  ⟨(c2_window_correctness ⟨1709643600000, true⟩ _ [] _ rfl (by decide)
      (List.mem_singleton.mpr rfl) (by decide)).1.mpr (by decide),
   fun hs => absurd ((c2_window_correctness ⟨1709643500000, true⟩ _ [] _ rfl
      (by decide) (List.mem_singleton.mpr rfl) (by decide)).1.mp hs) (by decide),
   fun hs => absurd ((c2_window_correctness ⟨1709643700000, true⟩ _ [] _ rfl
      (by decide) (List.mem_singleton.mpr rfl) (by decide)).1.mp hs) (by decide)⟩

/-- C10: when the announce channel does not resolve to a text-capable channel,
the tick leaves the ledger unchanged and sends nothing; the un-marked event
stays eligible, and any later tick with a working channel that falls in the
warning window does warn it. -/
theorem c10_unresolved_channel (env : TickEnv) (evs : List SEvent)
    (st : List Key) (hfail : env.channelOk = false) :
    schedulerTick env evs st = ⟨st, []⟩
      ∧ (∀ (env' : TickEnv) (ev : SEvent), env'.channelOk = true → ev ∈ evs →
          ev.key ∉ st → inWindowB env'.now ev = true →
          ev.key ∈ (schedulerTick env' evs st).sent) := by
  constructor
  · have : env = ⟨env.now, false⟩ := by
      cases env with
      | mk n c => simpa using hfail
    rw [this]
    exact schedulerTick_not_chOk env.now evs st
  · intro env' ev hok hmem hst hw
    show ev.key ∈ (List.foldl (tickStep env'.now env'.channelOk) ⟨st, []⟩ evs).sent
    rw [hok]
    exact foldl_tick_sends env'.now ev evs ⟨st, []⟩ hmem hw (Or.inr (by simpa))

/-- C10 witness: a concrete failed-channel tick changes nothing, and the next
in-window tick with a working channel warns the event. -/
theorem c10_unresolved_channel_witness :
    schedulerTick ⟨1709643600000, false⟩
        [⟨"ruins".data, .valid ⟨2024, 3, 5, 14, 0⟩, "ruins:c".data⟩] []
      = ⟨[], []⟩
      ∧ "ruins:c".data ∈ (schedulerTick ⟨1709643630000, true⟩
          [⟨"ruins".data, .valid ⟨2024, 3, 5, 14, 0⟩, "ruins:c".data⟩] []).sent :=
  ⟨(c10_unresolved_channel ⟨1709643600000, false⟩ _ [] rfl).1,
   (c10_unresolved_channel ⟨1709643600000, false⟩ _ [] rfl).2
     ⟨1709643630000, true⟩ _ rfl (List.mem_singleton.mpr rfl) (by decide)
     (by decide)⟩

/-! ### Query lemmas and claims -/

theorem find?_first_min {α : Type} {R : α → α → Prop} {p : α → Bool} :
    ∀ {l : List α}, l.Pairwise R → ∀ {a : α}, l.find? p = some a →
      ∀ b ∈ l, p b = true → a = b ∨ R a b := by
  intro l
  induction l with
  | nil => intro _ a h; cases h
  | cons x xs ih =>
    intro hp a hf b hb hpb
    cases hx : p x with
    | true =>
      rw [List.find?_cons_of_pos _ hx] at hf
      have hax : a = x := (Option.some.injEq _ _ ▸ hf).symm
      subst hax
      rcases List.mem_cons.mp hb with hbx | hbt
      · exact Or.inl hbx.symm
      · exact Or.inr ((List.pairwise_cons.mp hp).1 b hbt)
    | false =>
      rw [List.find?_cons_of_neg _ (by simp [hx])] at hf
      rcases List.mem_cons.mp hb with hbx | hbt
      · rw [hbx] at hpb; rw [hpb] at hx; cases hx
      · exact ih (List.pairwise_cons.mp hp).2 hf b hbt hpb

/-- C6 (amended): in the unnamed variant, `nextEvent` returns a catalog event
with `startsAt >= now` that is earliest among all such events (so an event
starting exactly at `now` qualifies), returns `none` exactly when no event has
`startsAt >= now`, and returns something whenever some event qualifies. -/
theorem c6_next_event (now : Int) (evs : List SEvent)
    (hs : evs.Pairwise (fun a b => evLE a b = true)) :
    (∀ e, nextEvent now evs = some e → e ∈ evs ∧ dtGE e.startsAt now = true
        ∧ ∀ e' ∈ evs, dtGE e'.startsAt now = true →
            ∀ c c', e.startsAt = .valid c → e'.startsAt = .valid c' →
              c.toMillis ≤ c'.toMillis)
      ∧ (nextEvent now evs = none ↔ ∀ e ∈ evs, dtGE e.startsAt now = false)
      ∧ (∀ e ∈ evs, dtGE e.startsAt now = true →
          ∃ e', nextEvent now evs = some e') := by
  refine ⟨?_, ?_, ?_⟩
  · intro e hf
    unfold nextEvent at hf
    refine ⟨List.mem_of_find?_eq_some hf, by simpa using List.find?_some hf, ?_⟩
    intro e' he' hge c c' hc hc'
    rcases find?_first_min hs hf e' he' hge with heq | hR
    · rw [heq] at hc
      rw [hc] at hc'
      rw [LuxonDT.valid.injEq] at hc'
      rw [hc']
    · unfold evLE at hR
      rw [hc, hc'] at hR
      exact of_decide_eq_true hR
  · unfold nextEvent
    rw [List.find?_eq_none]
    constructor
    · intro h e he
      have := h e he
      simpa using this
    · intro h e he
      simp [h e he]
  · intro e he hge
    have : (evs.find? (fun e => dtGE e.startsAt now)).isSome :=
      List.find?_isSome.mpr ⟨e, he, hge⟩
    exact Option.isSome_iff_exists.mp this

/-- C6 witness: an event starting exactly at `now` is found by `nextEvent`. -/
theorem c6_next_event_witness :
    ∃ e', nextEvent 1709647200000
      [⟨"ruins".data, .valid ⟨2024, 3, 5, 14, 0⟩, "ruins:n".data⟩] = some e' :=
  (c6_next_event 1709647200000
    [⟨"ruins".data, .valid ⟨2024, 3, 5, 14, 0⟩, "ruins:n".data⟩]
    (List.pairwise_singleton _ _)).2.2 _ (List.mem_singleton.mpr rfl) (by decide)

/-- C6 counterexample: the `index.js` `status` handler compares with strict
`>`, so a catalog event whose `startsAt` equals `now` exactly yields "No
upcoming events" instead of being returned, contradicting the claim's
`startsAt >= now`. -/
theorem c6_counterexample :
    indexNextEvent 1709647200000
        [⟨"ruins".data, .valid ⟨2024, 3, 5, 14, 0⟩, "ruins:n".data⟩] = none
      ∧ (DTC.toMillis ⟨2024, 3, 5, 14, 0⟩ : Int) = 1709647200000 := by
  constructor
  · decide
  · decide

/-- C5 (amended): in the unnamed variant, `listUpcoming` returns the first 50
of exactly the catalog events whose `startsAt` lies in `[now, now+D]` — every
returned event is valid and inside the closed range (in particular none starts
strictly before `now`), the output stays ascending, is capped at 50, and
equals the full in-range set whenever that set has at most 50 events. -/
theorem c5_upcoming (now endMs : Int) (evs : List SEvent)
    (hs : evs.Pairwise (fun a b => evLE a b = true)) :
    listUpcoming now endMs evs
        = (evs.filter (fun e => dtGE e.startsAt now && dtLE e.startsAt endMs)).take 50
      ∧ (∀ e ∈ listUpcoming now endMs evs, ∃ c, e.startsAt = .valid c
          ∧ now ≤ c.toMillis ∧ c.toMillis ≤ endMs)
      ∧ (listUpcoming now endMs evs).length ≤ 50
      ∧ (listUpcoming now endMs evs).Pairwise (fun a b => evLE a b = true)
      ∧ ((evs.filter
            (fun e => dtGE e.startsAt now && dtLE e.startsAt endMs)).length ≤ 50 →
          listUpcoming now endMs evs
            = evs.filter (fun e => dtGE e.startsAt now && dtLE e.startsAt endMs)) := by
  refine ⟨rfl, ?_, ?_, ?_, ?_⟩
  · intro e he
    have hmem := List.mem_of_mem_take he
    have hp := List.of_mem_filter hmem
    rw [Bool.and_eq_true] at hp
    cases hst : e.startsAt with
    | invalid =>
      rw [hst] at hp
      simp only [dtGE] at hp
      cases hp.1
    | valid c =>
      rw [hst] at hp
      simp only [dtGE, dtLE, decide_eq_true_eq] at hp
      exact ⟨c, rfl, hp.1, hp.2⟩
  · exact List.length_take_le _ _
  · exact hs.sublist ((List.take_sublist _ _).trans (List.filter_sublist _))
  · intro hlen
    exact List.take_of_length_le hlen

/-- C5 witness: a concrete two-event catalog — the in-range event is kept, the
past event dropped, and the cap holds. -/
theorem c5_upcoming_witness :
    listUpcoming 1709251200000 (1709251200000 + 604800000)
        [⟨"ruins".data, .valid ⟨2024, 2, 28, 0, 0⟩, "ruins:p".data⟩,
         ⟨"altar".data, .valid ⟨2024, 3, 5, 14, 0⟩, "altar:f".data⟩]
      = [⟨"altar".data, .valid ⟨2024, 3, 5, 14, 0⟩, "altar:f".data⟩]
      ∧ (listUpcoming 1709251200000 (1709251200000 + 604800000)
          [⟨"ruins".data, .valid ⟨2024, 2, 28, 0, 0⟩, "ruins:p".data⟩,
           ⟨"altar".data, .valid ⟨2024, 3, 5, 14, 0⟩, "altar:f".data⟩]).length ≤ 50 := by
  have h := c5_upcoming 1709251200000 (1709251200000 + 604800000)
    [⟨"ruins".data, .valid ⟨2024, 2, 28, 0, 0⟩, "ruins:p".data⟩,
     ⟨"altar".data, .valid ⟨2024, 3, 5, 14, 0⟩, "altar:f".data⟩]
    (by rw [List.pairwise_cons]
        exact ⟨by intro b hb; rw [List.mem_singleton.mp hb]; decide,
               List.pairwise_singleton _ _⟩)
  refine ⟨?_, h.2.2.1⟩
  rw [h.2.2.2.2 (by decide)]
  decide

/-- C5 counterexample: the `index.js` `week` handler filters only by the upper
bound, so an event one day in the past is returned, contradicting the claim
that no event with `startsAt` strictly before `now` is returned (it also
applies no 50-event cap). -/
theorem c5_counterexample :
    indexWeekList 1709251200000
        [⟨"ruins".data, .valid ⟨2024, 2, 29, 0, 0⟩, "ruins:p".data⟩]
      = [⟨"ruins".data, .valid ⟨2024, 2, 29, 0, 0⟩, "ruins:p".data⟩]
      ∧ (DTC.toMillis ⟨2024, 2, 29, 0, 0⟩ : Int) < 1709251200000 := by
  constructor
  · decide
  · decide

/-! ### Schedule-reading lemmas -/

theorem insertEv_perm (e : SEvent) : ∀ l : List SEvent, (insertEv e l).Perm (e :: l) := by
  intro l
  induction l with
  | nil => exact List.Perm.refl _
  | cons x xs ih =>
    unfold insertEv
    split
    · exact List.Perm.refl _
    · exact (List.Perm.cons x ih).trans (List.Perm.swap e x xs)

theorem sortEvents_perm : ∀ l : List SEvent, (sortEvents l).Perm l := by
  intro l
  induction l with
  | nil => exact List.Perm.refl _
  | cons x xs ih =>
    show (insertEv x (sortEvents xs)).Perm (x :: xs)
    exact (insertEv_perm x (sortEvents xs)).trans (List.Perm.cons x ih)

theorem readRawAux_nodup (now : Int) (ty : Str) :
    ∀ (ls : List Str) (seen : List Key),
      ((readRawAux now ty ls seen).map SEvent.key).Nodup
        ∧ ∀ k ∈ (readRawAux now ty ls seen).map SEvent.key, k ∉ seen := by
  intro ls
  induction ls with
  | nil => intro seen; exact ⟨List.nodup_nil, by simp [readRawAux]⟩
  | cons l ls ih =>
    intro seen
    cases hp : parseDateLineUTC now l with
    | none => simp only [readRawAux, hp]; exact ih seen
    | some dt =>
      by_cases hm : mkKey ty dt ∈ seen
      · simp only [readRawAux, hp, if_pos hm]
        exact ih seen
      · simp only [readRawAux, hp, if_neg hm]
        have h := ih (mkKey ty dt :: seen)
        constructor
        · rw [List.map_cons, List.nodup_cons]
          exact ⟨fun hmem => (h.2 _ hmem) (List.mem_cons_self _ _), h.1⟩
        · intro k hk
          rw [List.map_cons, List.mem_cons] at hk
          rcases hk with rfl | hk
          · exact hm
          · exact fun hks => (h.2 _ hk) (List.mem_cons_of_mem _ hks)

theorem readRawAux_key_shape (now : Int) (ty : Str) :
    ∀ (ls : List Str) (seen : List Key) (e : SEvent),
      e ∈ readRawAux now ty ls seen → ∃ s, e.key = ty ++ ':' :: s := by
  intro ls
  induction ls with
  | nil => intro seen e he; simp [readRawAux] at he
  | cons l ls ih =>
    intro seen e he
    cases hp : parseDateLineUTC now l with
    | none => simp only [readRawAux, hp] at he; exact ih seen e he
    | some dt =>
      by_cases hm : mkKey ty dt ∈ seen
      · simp only [readRawAux, hp, if_pos hm] at he
        exact ih seen e he
      · simp only [readRawAux, hp, if_neg hm] at he
        rcases List.mem_cons.mp he with rfl | htl
        · exact ⟨toISOText dt, rfl⟩
        · exact ih _ e htl

theorem seenAfter_mono (now : Int) (ty : Str) :
    ∀ (ls : List Str) (seen : List Key) (k : Key), k ∈ seen →
      k ∈ seenAfter now ty ls seen := by
  intro ls
  induction ls with
  | nil => intro seen k hk; exact hk
  | cons l ls ih =>
    intro seen k hk
    cases hp : parseDateLineUTC now l with
    | none => simp only [seenAfter, hp]; exact ih seen k hk
    | some dt =>
      by_cases hm : mkKey ty dt ∈ seen
      · simp only [seenAfter, hp, if_pos hm]; exact ih seen k hk
      · simp only [seenAfter, hp, if_neg hm]
        exact ih _ k (List.mem_cons_of_mem _ hk)

theorem key_mem_seenAfter (now : Int) (ty : Str) :
    ∀ (ls : List Str) (seen : List Key) (e : SEvent),
      e ∈ readRawAux now ty ls seen → e.key ∈ seenAfter now ty ls seen := by
  intro ls
  induction ls with
  | nil => intro seen e he; simp [readRawAux] at he
  | cons l ls ih =>
    intro seen e he
    cases hp : parseDateLineUTC now l with
    | none =>
      simp only [readRawAux, hp] at he
      simp only [seenAfter, hp]
      exact ih seen e he
    | some dt =>
      by_cases hm : mkKey ty dt ∈ seen
      · simp only [readRawAux, hp, if_pos hm] at he
        simp only [seenAfter, hp, if_pos hm]
        exact ih seen e he
      · simp only [readRawAux, hp, if_neg hm] at he
        simp only [seenAfter, hp, if_neg hm]
        rcases List.mem_cons.mp he with rfl | htl
        · exact seenAfter_mono now ty ls _ _ (List.mem_cons_self _ _)
        · exact ih _ e htl

theorem readRawAux_append (now : Int) (ty : Str) :
    ∀ (xs ys : List Str) (seen : List Key),
      readRawAux now ty (xs ++ ys) seen
        = readRawAux now ty xs seen
            ++ readRawAux now ty ys (seenAfter now ty xs seen) := by
  intro xs
  induction xs with
  | nil => intro ys seen; simp [readRawAux, seenAfter]
  | cons l ls ih =>
    intro ys seen
    rw [List.cons_append]
    cases hp : parseDateLineUTC now l with
    | none =>
      simp only [readRawAux, hp, seenAfter]
      exact ih ys seen
    | some dt =>
      by_cases hm : mkKey ty dt ∈ seen
      · simp only [readRawAux, hp, seenAfter, if_pos hm]
        exact ih ys seen
      · simp only [readRawAux, hp, seenAfter, if_neg hm]
        rw [List.cons_append]
        congr 1
        exact ih ys _

theorem readRawAux_skip (now : Int) (ty : Str) {l : Str}
    (hl : parseDateLineUTC now l = none) :
    ∀ (xs ys : List Str) (seen : List Key),
      readRawAux now ty (xs ++ l :: ys) seen = readRawAux now ty (xs ++ ys) seen := by
  intro xs
  induction xs with
  | nil =>
    intro ys seen
    rw [List.nil_append, List.nil_append]
    simp only [readRawAux, hl]
  | cons x xs ih =>
    intro ys seen
    rw [List.cons_append, List.cons_append]
    cases hp : parseDateLineUTC now x with
    | none => simp only [readRawAux, hp]; exact ih ys seen
    | some dt =>
      by_cases hm : mkKey ty dt ∈ seen
      · simp only [readRawAux, hp, if_pos hm]; exact ih ys seen
      · simp only [readRawAux, hp, if_neg hm]
        congr 1
        exact ih ys _

theorem preprocessLines_append (a b : List Str) :
    preprocessLines (a ++ b) = preprocessLines a ++ preprocessLines b := by
  unfold preprocessLines
  rw [List.map_append, List.filter_append]

theorem readScheduleFile_keys_nodup (now : Int) (lines : List Str) (ty : Str) :
    ((readScheduleFile now lines ty).map SEvent.key).Nodup := by
  have hperm := (sortEvents_perm (readRawAux now ty (preprocessLines lines) [])).map
    SEvent.key
  exact hperm.nodup_iff.mpr (readRawAux_nodup now ty (preprocessLines lines) []).1

theorem readScheduleFile_key_shape (now : Int) (lines : List Str) (ty : Str)
    (e : SEvent) (he : e ∈ readScheduleFile now lines ty) :
    ∃ s, e.key = ty ++ ':' :: s := by
  have hmem := (sortEvents_perm _).mem_iff.mp he
  exact readRawAux_key_shape now ty _ _ e hmem

/-! ### Line-shape helper lemmas -/

theorem trimL_head {c : Char} (hc : isWS c = false) (t : Str) :
    ∃ t', trimL (c :: t) = c :: t' := by
  unfold trimL
  rw [List.dropWhile_cons, hc]
  simp only [Bool.false_eq_true, if_false, List.reverse_cons]
  rw [List.dropWhile_append]
  by_cases he : (t.reverse.dropWhile isWS).isEmpty
  · rw [if_pos he]
    rw [List.dropWhile_cons, hc]
    simp
  · rw [if_neg he]
    refine ⟨(t.reverse.dropWhile isWS).reverse, ?_⟩
    rw [List.reverse_append]
    simp

theorem collapseWS_head {c : Char} (hc : isWS c = false) (t : Str) :
    ∃ t', collapseWS (c :: t) = c :: t' := by
  cases t with
  | nil => exact ⟨[], by simp [collapseWS, hc]⟩
  | cons d ds =>
    refine ⟨collapseWS (d :: ds), ?_⟩
    rw [collapseWS]
    rw [hc]
    simp

theorem stripWeekday_head_not_alpha {c : Char} (hc : c.isAlpha = false) (t : Str) :
    stripWeekday (c :: t) = c :: t := by
  unfold stripWeekday
  split
  · rename_i a b c' rest heq
    rw [List.cons.injEq] at heq
    rw [if_neg]
    rw [heq.1] at hc
    simp [hc]
  · rfl

theorem matchDMHM_not_digit_head {c : Char} (hc : c.isDigit = false) (t : Str) :
    matchDMHM (c :: t) = none := by
  unfold matchDMHM
  rw [List.span_eq_take_drop, List.takeWhile_cons, hc]
  simp

/-! ### Claim theorems: dedup and parser rejection -/

/-- C8: every per-source read has pairwise-distinct keys; a loaded catalog
(ruins + altar merged) has pairwise-distinct keys, since each key starts with
its own type label before the first colon; and appending a line whose
timestamp yields an already-present key leaves the output unchanged — the
first occurrence is kept and the later duplicate discarded. -/
theorem c8_key_uniqueness (now : Int) :
    (∀ (lines : List Str) (ty : Str),
        ((readScheduleFile now lines ty).map SEvent.key).Nodup)
      ∧ (∀ (rl al : List Str) (st : List Key),
          (((loadAllEvents now rl al st).1).map SEvent.key).Nodup)
      ∧ (∀ (lines : List Str) (l : Str) (ty : Str) (dt : LuxonDT),
          parseDateLineUTC now (trimL l) = some dt →
          mkKey ty dt ∈ (readScheduleFile now lines ty).map SEvent.key →
          readScheduleFile now (lines ++ [l]) ty
            = readScheduleFile now lines ty) := by
  refine ⟨fun lines ty => readScheduleFile_keys_nodup now lines ty, ?_, ?_⟩
  · intro rl al st
    have hperm := (sortEvents_perm (readScheduleFile now rl "ruins".data
        ++ readScheduleFile now al "altar".data)).map SEvent.key
    refine hperm.nodup_iff.mpr ?_
    rw [List.map_append]
    refine List.Nodup.append (readScheduleFile_keys_nodup _ _ _)
      (readScheduleFile_keys_nodup _ _ _) ?_
    intro k hk1 hk2
    rw [List.mem_map] at hk1 hk2
    obtain ⟨e1, he1, hke1⟩ := hk1
    obtain ⟨e2, he2, hke2⟩ := hk2
    obtain ⟨s1, hs1⟩ := readScheduleFile_key_shape now rl _ e1 he1
    obtain ⟨s2, hs2⟩ := readScheduleFile_key_shape now al _ e2 he2
    have hr : k.head? = some 'r' := by rw [← hke1, hs1]; rfl
    have ha : k.head? = some 'a' := by rw [← hke2, hs2]; rfl
    rw [hr] at ha
    exact absurd ha (by decide)
  · intro lines l ty dt hp hmem
    unfold readScheduleFile
    rw [preprocessLines_append]
    by_cases hk : ((!(trimL l).isEmpty && (trimL l).head? != some '#') = true)
    · have hone : preprocessLines [l] = [trimL l] := by
        unfold preprocessLines
        simp only [List.map_cons, List.map_nil, List.filter_cons, hk, if_true,
          List.filter_nil]
      rw [hone, readRawAux_append]
      have hseen : mkKey ty dt ∈ seenAfter now ty (preprocessLines lines) [] := by
        rw [List.mem_map] at hmem
        obtain ⟨e, he, hke⟩ := hmem
        have hraw : e ∈ readRawAux now ty (preprocessLines lines) [] :=
          (sortEvents_perm _).mem_iff.mp he
        rw [← hke]
        exact key_mem_seenAfter now ty _ _ e hraw
      simp only [readRawAux, hp, if_pos hseen, List.append_nil]
    · have hnil : preprocessLines [l] = [] := by
        unfold preprocessLines
        simp only [List.map_cons, List.map_nil, List.filter_cons, hk, if_false,
          List.filter_nil]
        simp [hk]
      rw [hnil, List.append_nil]

/-- C8 witness: two lines normalizing to the same timestamp — with and without
the weekday prefix — collapse to one event: appending the second changes
nothing. -/
theorem c8_key_uniqueness_witness :
    readScheduleFile 1709251200000
        (["5.3. 14:00".data] ++ ["Mon, 5.3. 14:00".data]) "ruins".data
      = readScheduleFile 1709251200000 ["5.3. 14:00".data] "ruins".data :=
  (c8_key_uniqueness 1709251200000).2.2 ["5.3. 14:00".data]
    "Mon, 5.3. 14:00".data "ruins".data (.valid ⟨2024, 3, 5, 14, 0⟩)
    (by decide) (by decide)

/-- C4 (amended): a line the parser rejects (empty after normalization,
comment, or not matching the `D.M. H:MM` shape) contributes no event — reading
with it gives the same result as without it; but a line that matches the shape
while naming an impossible calendar date yields a truthy Invalid DateTime, is
NOT skipped, and contributes an event whose key is `type:null`. -/
theorem c4_unparseable_lines (now : Int) (ty : Str) :
    (∀ (ls₁ ls₂ : List Str) (l : Str), parseDateLineUTC now (trimL l) = none →
        readScheduleFile now (ls₁ ++ l :: ls₂) ty
          = readScheduleFile now (ls₁ ++ ls₂) ty)
      ∧ (∀ (l : Str) (d m h mi : Nat),
          matchDMHM (normalizeLine (trimL l)) = some (d, m, h, mi) →
          validDMHM (yearOfEpochMs now) m d h mi = false →
          parseDateLineUTC now (trimL l) = some .invalid
            ∧ readScheduleFile now [l] ty
                = [⟨ty, .invalid, ty ++ ':' :: "null".data⟩]) := by
  constructor
  · intro ls₁ ls₂ l hl
    unfold readScheduleFile
    congr 1
    have h1 : ls₁ ++ l :: ls₂ = (ls₁ ++ [l]) ++ ls₂ := by simp
    rw [h1, preprocessLines_append, preprocessLines_append, preprocessLines_append]
    by_cases hk : ((!(trimL l).isEmpty && (trimL l).head? != some '#') = true)
    · have hone : preprocessLines [l] = [trimL l] := by
        unfold preprocessLines
        simp only [List.map_cons, List.map_nil, List.filter_cons, hk, if_true,
          List.filter_nil]
      rw [hone]
      have h2 : preprocessLines ls₁ ++ [trimL l] ++ preprocessLines ls₂
          = preprocessLines ls₁ ++ trimL l :: preprocessLines ls₂ := by simp
      rw [h2, readRawAux_skip now ty hl]
    · have hnil : preprocessLines [l] = [] := by
        unfold preprocessLines
        simp only [List.map_cons, List.map_nil, List.filter_cons, hk, if_false,
          List.filter_nil]
        simp [hk]
      rw [hnil, List.append_nil]
  · intro l d m h mi hm hv
    have hne : normalizeLine (trimL l) ≠ [] := by
      intro h0
      rw [h0] at hm
      rw [show matchDMHM ([] : Str) = none from rfl] at hm
      cases hm
    have hparse : parseDateLineUTC now (trimL l) = some .invalid := by
      unfold parseDateLineUTC
      simp only [if_neg hne, hm, fromObject, hv, Bool.false_eq_true, if_false]
    refine ⟨hparse, ?_⟩
    have htne : trimL l ≠ [] := by
      intro h0
      exact hne (by rw [h0]; rfl)
    have hhead : (trimL l).head? ≠ some '#' := by
      intro hh
      obtain ⟨t, ht⟩ : ∃ t, trimL l = '#' :: t := by
        cases hc : trimL l with
        | nil => rw [hc] at hh; cases hh
        | cons a t =>
          rw [hc] at hh
          simp only [List.head?_cons, Option.some.injEq] at hh
          exact ⟨t, by rw [hh]⟩
      rw [ht] at hm
      obtain ⟨t1, ht1⟩ := trimL_head (c := '#') (by decide) t
      obtain ⟨t2, ht2⟩ := collapseWS_head (c := '#') (by decide) t1
      unfold normalizeLine at hm
      rw [ht1, ht2, stripWeekday_head_not_alpha (by decide) t2] at hm
      rw [matchDMHM_not_digit_head (by decide) t2] at hm
      cases hm
    have hkeep : ((!(trimL l).isEmpty && (trimL l).head? != some '#') = true) := by
      rw [Bool.and_eq_true]
      constructor
      · simp [List.isEmpty_iff, htne]
      · simp only [bne_iff_ne, ne_eq]
        exact hhead
    have hpre : preprocessLines [l] = [trimL l] := by
      unfold preprocessLines
      simp only [List.map_cons, List.map_nil, List.filter_cons, hkeep, if_true,
        List.filter_nil]
    unfold readScheduleFile
    rw [hpre]
    simp only [readRawAux, hparse, List.not_mem_nil, if_false]
    rfl

/-- C4 counterexample: `31.2. 10:00` matches the `D.M. H:MM` shape but names
an impossible date (Feb 31); the parser returns a truthy Invalid DateTime
instead of "no event", and the caller does NOT skip the line — an event with
key `ruins:null` is added, contradicting the claim. -/
theorem c4_counterexample :
    parseDateLineUTC 1709251200000 "31.2. 10:00".data = some .invalid
      ∧ readScheduleFile 1709251200000 ["31.2. 10:00".data] "ruins".data
          = [⟨"ruins".data, .invalid, "ruins:null".data⟩] := by
  constructor
  · decide
  · decide

/-- C4 witness: a comment line in the middle of a file changes nothing, and
the impossible-date behavior at a concrete line. -/
theorem c4_unparseable_lines_witness :
    readScheduleFile 1709251200000
        (["5.3. 14:00".data] ++ "# note".data :: []) "ruins".data
      = readScheduleFile 1709251200000 (["5.3. 14:00".data] ++ []) "ruins".data
      ∧ readScheduleFile 1709251200000 ["31.2. 10:00".data] "ruins".data
          = [⟨"ruins".data, .invalid, "ruins".data ++ ':' :: "null".data⟩] :=
  ⟨(c4_unparseable_lines 1709251200000 "ruins".data).1 _ _ _ (by decide),
   ((c4_unparseable_lines 1709251200000 "ruins".data).2 _ 31 2 10 0
     (by decide) (by decide)).2⟩

/-! ### Claim theorems: year inference and reply truncation -/

/-- C3: for a line matching the `D.M. H:MM` shape whose components form a real
date in the current UTC year, the parser returns the candidate built in the
current UTC year, advanced by exactly one luxon year (year + 1, same month,
hour and minute, day clamped to the target month) precisely when the candidate
is more than 5 minutes (300 000 ms) in the past relative to `now`, and
unchanged otherwise. -/
theorem c3_year_inference (now : Int) (line : Str) (d m h mi : Nat)
    (hm : matchDMHM (normalizeLine line) = some (d, m, h, mi))
    (hv : validDMHM (yearOfEpochMs now) m d h mi = true) :
    parseDateLineUTC now line
        = some (.valid
            (if (⟨yearOfEpochMs now, m, d, h, mi⟩ : DTC).toMillis < now - 300000
             then plusOneYearC ⟨yearOfEpochMs now, m, d, h, mi⟩
             else ⟨yearOfEpochMs now, m, d, h, mi⟩))
      ∧ (now - (⟨yearOfEpochMs now, m, d, h, mi⟩ : DTC).toMillis > 300000
          ↔ (⟨yearOfEpochMs now, m, d, h, mi⟩ : DTC).toMillis < now - 300000)
      ∧ (plusOneYearC ⟨yearOfEpochMs now, m, d, h, mi⟩).year = yearOfEpochMs now + 1
      ∧ (plusOneYearC ⟨yearOfEpochMs now, m, d, h, mi⟩).month = m
      ∧ (plusOneYearC ⟨yearOfEpochMs now, m, d, h, mi⟩).hour = h
      ∧ (plusOneYearC ⟨yearOfEpochMs now, m, d, h, mi⟩).minute = mi := by
  refine ⟨?_, by omega, rfl, rfl, rfl, rfl⟩
  have hne : normalizeLine line ≠ [] := by
    intro h0
    rw [h0] at hm
    rw [show matchDMHM ([] : Str) = none from rfl] at hm
    cases hm
  unfold parseDateLineUTC
  simp only [if_neg hne, hm, fromObject, hv, if_true]

/-- C3 witness: the spec's scenarios — `"Mon, 5.3. 14:00"` parsed at
2024-03-01T00:00Z stays in 2024; parsed at 2024-03-06T00:00Z (already past) it
moves to 2025. -/
theorem c3_year_inference_witness :
    parseDateLineUTC 1709251200000 "Mon, 5.3. 14:00".data
        = some (.valid ⟨2024, 3, 5, 14, 0⟩)
      ∧ parseDateLineUTC 1709683200000 "Mon, 5.3. 14:00".data
          = some (.valid ⟨2025, 3, 5, 14, 0⟩) := by
  constructor
  · rw [(c3_year_inference 1709251200000 "Mon, 5.3. 14:00".data 5 3 14 0
      (by decide) (by decide)).1]
    decide
  · rw [(c3_year_inference 1709683200000 "Mon, 5.3. 14:00".data 5 3 14 0
      (by decide) (by decide)).1]
    decide

/-- C9 (amended / part_000 variant): the `formatUpcomingLines` reply body is
never longer than 1811 characters (1800 plus the 11-character
`"\n…(trimmed)"` marker); the marker is appended exactly when the joined
listing exceeds 1800 characters, and otherwise the listing is returned
unchanged.  (The `index.js` variant applies no truncation at all — see the
counterexample.) -/
theorem c9_truncation (items : List SEvent) :
    (formatUpcomingLines items).length ≤ 1811
      ∧ (items.isEmpty = false → 1800 < (upcomingBody items).length →
          formatUpcomingLines items
            = (upcomingBody items).take 1800 ++ trimMarker)
      ∧ (items.isEmpty = false → (upcomingBody items).length ≤ 1800 →
          formatUpcomingLines items = upcomingBody items) := by
  simp only [formatUpcomingLines]
  by_cases he : items.isEmpty
  · rw [if_pos he]
    rw [he]
    exact ⟨by decide, fun h => absurd h (by decide), fun h => absurd h (by decide)⟩
  · rw [if_neg he]
    by_cases hl : 1800 < (upcomingBody items).length
    · rw [if_pos hl]
      refine ⟨?_, fun _ _ => rfl, fun _ hle => by omega⟩
      rw [List.length_append, List.length_take]
      have hmark : trimMarker.length = 11 := by decide
      omega
    · rw [if_neg hl]
      exact ⟨by omega, fun _ hgt => absurd hgt hl, fun _ _ => rfl⟩

theorem joinNL_length_replicate (x : Str) :
    ∀ n, 0 < n → (joinNL (List.replicate n x)).length = n * (x.length + 1) - 1 := by
  intro n
  induction n with
  | zero => intro h; omega
  | succ k ih =>
    intro _
    cases k with
    | zero => simp [joinNL, List.replicate]
    | succ k2 =>
      have hstep : joinNL (List.replicate (k2 + 1 + 1) x)
          = x ++ '\n' :: joinNL (List.replicate (k2 + 1) x) := by
        rw [List.replicate_succ]
        rw [List.replicate_succ]
        rfl
      rw [hstep, List.length_append, List.length_cons, ih (by omega)]
      have hk : 0 < (k2 + 1) * (x.length + 1) := Nat.mul_pos (by omega) (by omega)
      have hexp : (k2 + 1 + 1) * (x.length + 1)
          = (k2 + 1) * (x.length + 1) + (x.length + 1) := by ring
      omega

theorem upcomingBody_length_replicate (e : SEvent) (n : Nat) (hn : 0 < n) :
    (upcomingBody (List.replicate n e)).length
      = n * ((upcomingLine e).length + 1) - 1 := by
  unfold upcomingBody
  rw [List.map_replicate]
  exact joinNL_length_replicate _ n hn

/-- C9 witness: with 30 identical listing items the body is 2249 characters,
so the reply is the 1800-character prefix plus the marker. -/
theorem c9_truncation_witness :
    (formatUpcomingLines (List.replicate 30
        ⟨"ruins".data, .valid ⟨2024, 3, 5, 14, 0⟩, "k".data⟩)).length ≤ 1811
      ∧ formatUpcomingLines (List.replicate 30
            ⟨"ruins".data, .valid ⟨2024, 3, 5, 14, 0⟩, "k".data⟩)
          = (upcomingBody (List.replicate 30
              ⟨"ruins".data, .valid ⟨2024, 3, 5, 14, 0⟩, "k".data⟩)).take 1800
              ++ trimMarker :=
  ⟨(c9_truncation _).1,
   (c9_truncation (List.replicate 30
       ⟨"ruins".data, .valid ⟨2024, 3, 5, 14, 0⟩, "k".data⟩)).2.1
     (by decide)
     (by rw [upcomingBody_length_replicate _ 30 (by omega)]
         rw [show (upcomingLine
              ⟨"ruins".data, .valid ⟨2024, 3, 5, 14, 0⟩, "k".data⟩).length = 74
            from by decide]
         omega)⟩

/-- C9 counterexample: the `index.js` `week` handler joins its lines with no
truncation and no marker; with 90 events the reply body is 2699 characters —
far beyond the claimed ~1800-character bound, refuting the claim for that
variant. -/
theorem c9_counterexample :
    2500 < (indexWeekReplyBody 1709251200000
      (List.replicate 90
        ⟨"ruins".data, .valid ⟨2024, 3, 5, 14, 0⟩, "k".data⟩)).length := by
  have hfilter : indexWeekList 1709251200000 (List.replicate 90
      ⟨"ruins".data, .valid ⟨2024, 3, 5, 14, 0⟩, "k".data⟩)
      = List.replicate 90 ⟨"ruins".data, .valid ⟨2024, 3, 5, 14, 0⟩, "k".data⟩ := by
    unfold indexWeekList
    rw [List.filter_replicate, if_pos (by decide)]
  simp only [indexWeekReplyBody, hfilter]
  rw [if_neg (by decide)]
  rw [List.map_replicate]
  rw [joinNL_length_replicate _ 90 (by omega)]
  rw [show (indexListLine
       ⟨"ruins".data, .valid ⟨2024, 3, 5, 14, 0⟩, "k".data⟩).length = 29
     from by decide]
  omega

/-! ### ISO round-trip lemmas and the ledger-prune claim -/

theorem digitVal?_digitChar10 (n : Nat) : digitVal? (digitChar10 n) = some (n % 10) := by
  have h : n % 10 < 10 := Nat.mod_lt _ (by omega)
  unfold digitChar10
  generalize hg : n % 10 = k at h ⊢
  interval_cases k <;> decide

theorem read2_digits (n : Nat) :
    read2 (digitChar10 (n / 10)) (digitChar10 n)
      = some (n / 10 % 10 * 10 + n % 10) := by
  unfold read2
  rw [digitVal?_digitChar10, digitVal?_digitChar10]

theorem read2_pad2 (n : Nat) (h : n < 100) :
    read2 (digitChar10 (n / 10)) (digitChar10 n) = some n := by
  rw [read2_digits]
  congr 1
  omega

theorem read4_pad4 (n : Nat) (h : n < 10000) :
    read4 (digitChar10 (n / 1000)) (digitChar10 (n / 100))
        (digitChar10 (n / 10)) (digitChar10 n) = some n := by
  unfold read4
  rw [show n / 1000 = n / 100 / 10 from by omega]
  rw [read2_digits (n / 100), read2_digits n]
  show some ((n / 100 / 10 % 10 * 10 + n / 100 % 10) * 100
    + (n / 10 % 10 * 10 + n % 10)) = some n
  congr 1
  omega

theorem daysInMonth_le (y : Int) (m : Nat) : daysInMonth y m ≤ 31 := by
  unfold daysInMonth
  split <;> (try split) <;> omega

set_option maxRecDepth 4000 in
theorem readISOTime_pad (h mi : Nat) (hh : h ≤ 23) (hmi : mi ≤ 59) :
    readISOTime (pad2 h ++ ':' :: pad2 mi ++ ":00.000Z".data)
      = some (h * 3600000 + mi * 60000) := by
  have h1 : hourVal (digitChar10 (h / 10)) (digitChar10 h) = some (h * 3600000) := by
    unfold hourVal
    rw [read2_pad2 h (by omega)]
    show (if h ≤ 23 then some (h * 3600000) else none) = some (h * 3600000)
    rw [if_pos hh]
  have h2 : minSecVal (digitChar10 (mi / 10)) (digitChar10 mi) 60000
      = some (mi * 60000) := by
    unfold minSecVal
    rw [read2_pad2 mi (by omega)]
    show (if mi ≤ 59 then some (mi * 60000) else none) = some (mi * 60000)
    rw [if_pos hmi]
  have h3 : minSecVal '0' '0' 1000 = some 0 := by decide
  have h4 : msVal '0' '0' '0' = some 0 := by decide
  show addV (addV (addV (hourVal (digitChar10 (h / 10)) (digitChar10 h))
      (minSecVal (digitChar10 (mi / 10)) (digitChar10 mi) 60000))
      (minSecVal '0' '0' 1000)) (msVal '0' '0' '0')
    = some (h * 3600000 + mi * 60000)
  rw [h1, h2, h3, h4]
  show some (h * 3600000 + mi * 60000 + 0 + 0) = some (h * 3600000 + mi * 60000)
  exact congrArg some (by omega)

set_option maxRecDepth 4000 in
theorem fromISOms_isoOfDTC (c : DTC)
    (hv : validDMHM c.year c.month c.day c.hour c.minute = true)
    (hy0 : 0 ≤ c.year) (hy : c.year ≤ 9999) :
    fromISOms (isoOfDTC c) = some c.toMillis := by
  obtain ⟨y, m, d, h, mi⟩ := c
  simp only [validDMHM, Bool.and_eq_true, decide_eq_true_eq] at hv
  obtain ⟨⟨⟨⟨⟨hm1, hm2⟩, hd1⟩, hd2⟩, hh⟩, hmi⟩ := hv
  simp only at hy0 hy hd2 ⊢
  have hyn : y.toNat < 10000 := by omega
  show fromISOms (digitChar10 (y.toNat / 1000) :: digitChar10 (y.toNat / 100)
      :: digitChar10 (y.toNat / 10) :: digitChar10 y.toNat :: '-'
      :: digitChar10 (m / 10) :: digitChar10 m :: '-'
      :: digitChar10 (d / 10) :: digitChar10 d
      :: ('T' :: (pad2 h ++ ':' :: pad2 mi ++ ":00.000Z".data)))
    = some (DTC.toMillis ⟨y, m, d, h, mi⟩)
  show (match read4 (digitChar10 (y.toNat / 1000)) (digitChar10 (y.toNat / 100))
            (digitChar10 (y.toNat / 10)) (digitChar10 y.toNat),
          read2 (digitChar10 (m / 10)) (digitChar10 m),
          read2 (digitChar10 (d / 10)) (digitChar10 d) with
      | some yv, some mo, some dy =>
        if 1 ≤ mo ∧ mo ≤ 12 ∧ 1 ≤ dy ∧ dy ≤ daysInMonth (yv : Int) mo then
          if ('T' : Char) = 'T' then
            match readISOTime (pad2 h ++ ':' :: pad2 mi ++ ":00.000Z".data) with
            | some ms =>
              some (daysFromCivil (yv : Int) mo dy * 86400000 + (ms : Int))
            | none => none
          else none
        else none
      | _, _, _ => none) = some (DTC.toMillis ⟨y, m, d, h, mi⟩)
  rw [read4_pad4 y.toNat hyn, read2_pad2 m (by omega),
    read2_pad2 d (by have := daysInMonth_le y m; omega)]
  have hcast : ((y.toNat : Nat) : Int) = y := Int.toNat_of_nonneg hy0
  show (if 1 ≤ m ∧ m ≤ 12 ∧ 1 ≤ d ∧ d ≤ daysInMonth ((y.toNat : Nat) : Int) m then
      if ('T' : Char) = 'T' then
        match readISOTime (pad2 h ++ ':' :: pad2 mi ++ ":00.000Z".data) with
        | some ms =>
          some (daysFromCivil ((y.toNat : Nat) : Int) m d * 86400000 + (ms : Int))
        | none => none
      else none
    else none) = some (DTC.toMillis ⟨y, m, d, h, mi⟩)
  rw [hcast]
  rw [if_pos ⟨hm1, hm2, hd1, hd2⟩]
  rw [readISOTime_pad h mi hh hmi]
  rfl

theorem splitCols_ne_nil : ∀ s : Str, splitCols s ≠ [] := by
  intro s
  cases s with
  | nil => simp [splitCols]
  | cons c cs =>
    cases h : splitCols cs with
    | nil => simp [splitCols, h]
    | cons r rs =>
      simp only [splitCols, h]
      split <;> simp

theorem splitCols_append (ty s : Str) (h : ':' ∉ ty) :
    splitCols (ty ++ ':' :: s) = ty :: splitCols s := by
  induction ty with
  | nil =>
    rw [List.nil_append]
    cases hc : splitCols s with
    | nil => exact absurd hc (splitCols_ne_nil s)
    | cons r rs => simp [splitCols, hc]
  | cons a ty ih =>
    have ha : ¬ (a = ':') := fun hh => h (hh ▸ List.mem_cons_self _ _)
    have ih' := ih (fun hm => h (List.mem_cons_of_mem _ hm))
    rw [List.cons_append]
    simp only [splitCols, ih']
    simp [ha]

theorem joinCols_cons_cons (c : Char) (r : Str) (rs : List Str) :
    joinCols ((c :: r) :: rs) = c :: joinCols (r :: rs) := by
  cases rs with
  | nil => rfl
  | cons r2 rs2 => rfl

theorem joinCols_splitCols : ∀ s : Str, joinCols (splitCols s) = s := by
  intro s
  induction s with
  | nil => rfl
  | cons c cs ih =>
    cases hc : splitCols cs with
    | nil => exact absurd hc (splitCols_ne_nil cs)
    | cons r rs =>
      rw [hc] at ih
      by_cases h : c = ':'
      · subst h
        simp only [splitCols, hc, if_true]
        show ([] : Str) ++ ':' :: joinCols (r :: rs) = ':' :: cs
        rw [ih]
        rfl
      · simp only [splitCols, hc]
        rw [if_neg h, joinCols_cons_cons, ih]

theorem restAfterColon_mkKey (ty : Str) (h : ':' ∉ ty) (s : Str) :
    restAfterColon (ty ++ ':' :: s) = s := by
  unfold restAfterColon
  rw [splitCols_append ty s h]
  show joinCols (splitCols s) = s
  exact joinCols_splitCols s

/-- C7 (amended / part_000 variant): on reload, pruning removes exactly the
well-formed ledger entries whose embedded timestamp is more than 14 days
(strictly) older than `now`; entries whose stored key does not parse to a
timestamp are left untouched; and `loadAllEvents` persists exactly the pruned
ledger.  (The `index.js` variant truncates the embedded timestamp at its first
colon — see the counterexample.) -/
theorem c7_ledger_prune (now : Int) (c : DTC) (ty : Str) (st : List Key)
    (rl al : List Str) (hty : ':' ∉ ty)
    (hv : validDMHM c.year c.month c.day c.hour c.minute = true)
    (hy0 : 0 ≤ c.year) (hy : c.year ≤ 9999) :
    ((ty ++ ':' :: isoOfDTC c) ∈ pruneLedger now st
        ↔ (ty ++ ':' :: isoOfDTC c) ∈ st ∧ ¬ (now - c.toMillis > fourteenDaysMs))
      ∧ (∀ k : Key, fromISOms (restAfterColon k) = none →
          (k ∈ pruneLedger now st ↔ k ∈ st))
      ∧ (loadAllEvents now rl al st).2 = pruneLedger now st := by
  refine ⟨?_, ?_, rfl⟩
  · unfold pruneLedger
    rw [List.mem_filter]
    have hrest : restAfterColon (ty ++ ':' :: isoOfDTC c) = isoOfDTC c :=
      restAfterColon_mkKey ty hty _
    constructor
    · rintro ⟨hmem, hp⟩
      refine ⟨hmem, ?_⟩
      simp only [hrest, fromISOms_isoOfDTC c hv hy0 hy, Bool.not_eq_true',
        decide_eq_false_iff_not] at hp
      omega
    · rintro ⟨hmem, hage⟩
      refine ⟨hmem, ?_⟩
      simp only [hrest, fromISOms_isoOfDTC c hv hy0 hy, Bool.not_eq_true',
        decide_eq_false_iff_not]
      omega
  · intro k hk
    unfold pruneLedger
    rw [List.mem_filter]
    constructor
    · exact fun h => h.1
    · intro hmem
      refine ⟨hmem, ?_⟩
      simp only [hk]

/-- C7 witness: with `now` = 2026-01-16T00:00Z, the entry embedded at
2026-01-01 (15 days old) is pruned, the one at 2026-01-03 (13 days old) is
retained, and a malformed entry is untouched. -/
theorem c7_ledger_prune_witness :
    ¬ (("ruins".data ++ ':' :: isoOfDTC ⟨2026, 1, 1, 0, 0⟩)
        ∈ pruneLedger (DTC.toMillis ⟨2026, 1, 16, 0, 0⟩)
            [("ruins".data ++ ':' :: isoOfDTC ⟨2026, 1, 1, 0, 0⟩),
             ("altar".data ++ ':' :: isoOfDTC ⟨2026, 1, 3, 0, 0⟩),
             "garbage".data])
      ∧ (("altar".data ++ ':' :: isoOfDTC ⟨2026, 1, 3, 0, 0⟩)
          ∈ pruneLedger (DTC.toMillis ⟨2026, 1, 16, 0, 0⟩)
              [("ruins".data ++ ':' :: isoOfDTC ⟨2026, 1, 1, 0, 0⟩),
               ("altar".data ++ ':' :: isoOfDTC ⟨2026, 1, 3, 0, 0⟩),
               "garbage".data])
      ∧ ("garbage".data
          ∈ pruneLedger (DTC.toMillis ⟨2026, 1, 16, 0, 0⟩)
              [("ruins".data ++ ':' :: isoOfDTC ⟨2026, 1, 1, 0, 0⟩),
               ("altar".data ++ ':' :: isoOfDTC ⟨2026, 1, 3, 0, 0⟩),
               "garbage".data]) :=
  ⟨fun hm => absurd
      (((c7_ledger_prune (DTC.toMillis ⟨2026, 1, 16, 0, 0⟩) ⟨2026, 1, 1, 0, 0⟩
        "ruins".data _ [] [] (by decide) (by decide) (by decide) (by decide)).1.mp
        hm).2)
      (by simp only [not_not]; decide),
   (c7_ledger_prune (DTC.toMillis ⟨2026, 1, 16, 0, 0⟩) ⟨2026, 1, 3, 0, 0⟩
      "altar".data _ [] [] (by decide) (by decide) (by decide) (by decide)).1.mpr
     ⟨by decide, by decide⟩,
   ((c7_ledger_prune (DTC.toMillis ⟨2026, 1, 16, 0, 0⟩) ⟨2026, 1, 3, 0, 0⟩
      "altar".data _ [] [] (by decide) (by decide) (by decide) (by decide)).2.1
     "garbage".data (by decide)).mpr (by decide)⟩

/-- C7 counterexample: the `index.js` prune reads `k.split(":")[1]`, the ISO
timestamp truncated at its first colon (hour resolution).  A ledger entry
embedded at 2026-01-01T00:50Z with `now` = 2026-01-15T00:30Z is only
13 days 23 h 40 min old — the claim says it must be retained — but its
truncated timestamp is 14 days 30 min old and `index.js` deletes it. -/
theorem c7_counterexample :
    indexPruneLedger (DTC.toMillis ⟨2026, 1, 15, 0, 30⟩)
        ["ruins".data ++ ':' :: isoOfDTC ⟨2026, 1, 1, 0, 50⟩] = []
      ∧ DTC.toMillis ⟨2026, 1, 15, 0, 30⟩ - DTC.toMillis ⟨2026, 1, 1, 0, 50⟩
          ≤ fourteenDaysMs := by
  constructor
  · decide
  · decide

end RuinsAltar
